import Mathlib

/-
  Verification development for the blobvm chain core.

  Shallow embedding conventions:
  * Go byte slices are `List Nat` with each element a byte value (< 256 where
    it matters); uint64 quantities are `Nat` with explicit bounds / `% 2^64`
    at the points where Go arithmetic can wrap.
  * The keccak256 digest (go-ethereum `crypto.Keccak256`, an external
    dependency of the repository) is abstracted as an explicit function
    argument `kh : Bytes -> Bytes`; every theorem holds for an arbitrary
    digest function, and concrete witnesses instantiate it with an
    executable stand-in.
  * The avalanchego key-value database is modelled at the granularity of its
    disjoint key partitions (distinct one-byte key prefixes in storage.go
    guarantee the partitions never collide): `State` holds one partial map
    per partition used by the claims.  The codec `Marshal`/`Unmarshal`
    round-trip (external avalanchego dependency) is elided: values are kept
    in their decoded form.
  * Fallible Go functions returning `(T, error)` become `Except ChainErr T`
    or `Option T`; a function that returns an error without writing returns
    no new state, so "no mutation on failure" is by construction and is
    noted where a claim depends on it.
-/

namespace Blobvm

abbrev Bytes := List Nat

/-- common.Address: opaque account identity (only equality is used). -/
abbrev Address := Nat

/-- storage.go key-space prefixes (source constants blockPrefix .. balancePrefix;
the Byte suffix is added to the Lean names). -/
def keyPrefixByte : Nat := 0x3

def txValuePrefixByte : Nat := 0x2

/-- storage.go ByteDelimiter = '/'. -/
def ByteDelimiter : Nat := 0x2f

/-- common.Hash\x7b\x7d: the 32 zero bytes sentinel. -/
def zeroHash : Bytes := List.replicate 32 0

/-- common.BytesToHash: right-align b in 32 bytes (truncate from the left when
longer, left-pad with zeros when shorter). -/
def BytesToHash (b : Bytes) : Bytes :=
  let b2 := if 32 < b.length then b.drop (b.length - 32) else b
  List.replicate (32 - b2.length) 0 ++ b2

/-- ValueHash (part_005): common.BytesToHash (crypto.Keccak256 v), with the
keccak digest abstracted as kh. -/
def ValueHash (kh : Bytes → Bytes) (v : Bytes) : Bytes :=
  BytesToHash (kh v)

/-- storage.go ValueKey: [keyPrefix] + [delimiter] + [32-byte key]. -/
def ValueKey (key : Bytes) : Bytes :=
  keyPrefixByte :: ByteDelimiter :: key

/-- Go bytes.Compare: lexicographic, result in \x7b-1, 0, 1\x7d. -/
def bytesCompare : Bytes → Bytes → Int
  | [], [] => 0
  | [], _ :: _ => -1
  | _ :: _, [] => 1
  | a :: as, b :: bs =>
    if a < b then -1 else if b < a then 1 else bytesCompare as bs

/-- Go bytes.HasPrefix s pre. -/
def hasPre : Bytes → Bytes → Bool
  | _, [] => true
  | [], _ :: _ => false
  | a :: as, b :: bs => a == b && hasPre as bs

/-- Helper for natBytesBE, structurally recursive on a fuel bound (n itself
bounds the number of base-256 digits of n, since n / 256 < n for n > 0). -/
def natBytesBEGo : Nat → Nat → Bytes
  | _, 0 => []
  | 0, _ + 1 => []
  | fuel + 1, n + 1 => natBytesBEGo fuel ((n + 1) / 256) ++ [(n + 1) % 256]

/-- big.Int.SetUint64(n).Bytes(): minimal big-endian bytes, empty for 0. -/
def natBytesBE (n : Nat) : Bytes :=
  natBytesBEGo n n

/-- The loop body of storage.go SelectRandomValueKey over the ascending key
sequence the database iterator yields: the dead guard
(bytes.Compare never returns a value below -1) and the full-34-byte
HasPrefix test are reproduced exactly as written. -/
def selectLoop (baseKey : Bytes) : List Bytes → Bytes
  | [] => zeroHash
  | curKey :: rest =>
    if bytesCompare baseKey curKey < -1 then selectLoop baseKey rest
    else if ¬ hasPre curKey baseKey then zeroHash
    else BytesToHash (curKey.drop 2)

/-- storage.go SelectRandomValueKey.  dbKeys is the full key set of the
database in ascending bytes.Compare order; NewIteratorWithStart(startKey)
yields exactly the keys that are ≥ startKey, in that order. -/
def SelectRandomValueKey (kh : Bytes → Bytes) (dbKeys : List Bytes) (index : Nat) : Bytes :=
  let seed := natBytesBE index
  let iterator := ValueHash kh seed
  let startKey := ValueKey iterator
  let baseKey := ValueKey zeroHash
  selectLoop baseKey (dbKeys.filter (fun k => decide (0 ≤ bytesCompare k startKey)))

/-- storage.go ValueMeta. -/
structure ValueMeta where
  Size : Nat
  TxID : Bytes
  Created : Nat
deriving DecidableEq, Repr

/-- Genesis (chain config, from the genesis source file). Allocation fields
(CustomAllocation, AirdropHash, AirdropUnits) are not consulted by any claim
and are omitted. -/
structure Genesis where
  Magic : Nat
  BaseTxUnits : Nat
  ValueUnitSize : Nat
  MaxValueSize : Nat
  MinPrice : Nat
  LookbackWindow : Int
  TargetBlockRate : Int
  TargetBlockSize : Nat
  MaxBlockSize : Nat
  BlockCostEnabled : Bool
deriving DecidableEq, Repr

/-- DefaultGenesis with the source constants (units.KiB = 1024). -/
def DefaultGenesis : Genesis :=
  { Magic := 0
    BaseTxUnits := 1
    ValueUnitSize := 1024
    MaxValueSize := 200 * 1024
    MinPrice := 1
    LookbackWindow := 60
    TargetBlockRate := 1
    TargetBlockSize := 225
    MaxBlockSize := 246
    BlockCostEnabled := true }

/-- The database state, split into the disjoint key partitions the claims
touch: 0x3/ content-key metadata, 0x2/ transaction-linked values, 0x4/
balances. -/
structure State where
  valueMetas : Bytes → Option ValueMeta
  txValues : Bytes → Option Bytes
  balances : Address → Option Nat

def emptyState : State :=
  { valueMetas := fun _ => none
    txValues := fun _ => none
    balances := fun _ => none }

/-- Error taxonomy (chain errors plus the client integrity error). -/
inductive ChainErr where
  | ValueEmpty
  | ValueTooBig
  | KeyExists
  | InvalidBalance
  | NotFound
  | IntegrityFailure
deriving DecidableEq, Repr

/-- storage.go GetValueMeta: read the 0x3/ slot for the content key
(database ErrNotFound becomes the none result). -/
def GetValueMeta (db : State) (key : Bytes) : Option ValueMeta :=
  db.valueMetas key

/-- storage.go PutKey: write the marshalled ValueMeta under the content key. -/
def PutKey (db : State) (key : Bytes) (vmeta : ValueMeta) : State :=
  { db with valueMetas := fun k => if k = key then some vmeta else db.valueMetas k }

/-- storage.go db.Put on the 0x2/ partition: PrefixTxValueKey(txID) => value
(done by linkValues on block accept, and directly in the SetTx unit test). -/
def putTxValue (db : State) (txID : Bytes) (v : Bytes) : State :=
  { db with txValues := fun k => if k = txID then some v else db.txValues k }

/-- part_002 SetTx payload. -/
structure SetTx where
  Value : Bytes
deriving DecidableEq, Repr

/-- TransactionContext fields consumed by SetTx.Execute (the mutable database
view is passed separately as State). -/
structure TransactionContext where
  genesis : Genesis
  blockTime : Nat
  txID : Bytes
  sender : Address

/-- part_002 SetTx.Execute: empty / oversize payload checks, duplicate
content-key lookup, then PutKey of ValueMeta\x7bsize, txID, blockTime\x7d.
An error result carries no new state (the Go code returns before any write). -/
def SetTx.Execute (kh : Bytes → Bytes) (s : SetTx) (t : TransactionContext) (db : State) :
    Except ChainErr State :=
  if s.Value.length = 0 then .error .ValueEmpty
  else if t.genesis.MaxValueSize < s.Value.length then .error .ValueTooBig
  else
    match GetValueMeta db (ValueHash kh s.Value) with
    | some _ => .error .KeyExists
    | none =>
      .ok (PutKey db (ValueHash kh s.Value)
        { Size := s.Value.length, TxID := t.txID, Created := t.blockTime })

/-- part_005 valueUnits: size/g.ValueUnitSize + 1 (integer division). -/
def valueUnits (g : Genesis) (size : Nat) : Nat :=
  size / g.ValueUnitSize + 1

/-- Modelled from the spec: BaseTx is not among the provided source files;
per the spec, the base fee of every transaction variant is the genesis base
units ("Fee units = base units + ..."). -/
def BaseTxFeeUnits (g : Genesis) : Nat :=
  g.BaseTxUnits

/-- part_002 SetTx.FeeUnits: base units plus valueUnits of the payload length. -/
def SetTx.FeeUnits (s : SetTx) (g : Genesis) : Nat :=
  BaseTxFeeUnits g + valueUnits g s.Value.length

/-- avalanchego ids.ToID: succeeds exactly on 32-byte input. -/
def toID (b : Bytes) : Option Bytes :=
  if b.length = 32 then some b else none

/-- storage.go getLinkedValue: parse b as a transaction id and read the 0x2/
slot.  The process-wide LRU cache is omitted: it memoizes exactly this
lookup.  none covers both the ids.ToID error and a missing database entry. -/
def getLinkedValue (db : State) (b : Bytes) : Option Bytes :=
  (toID b).bind db.txValues

/-- storage.go GetValue: meta lookup (ErrNotFound => exists = false, modelled
as .ok none), then resolve the linked value through the owning transaction
id; a failure of that inner lookup propagates as an error. -/
def GetValue (db : State) (key : Bytes) : Except ChainErr (Option Bytes) :=
  match GetValueMeta db key with
  | none => .ok none
  | some vmeta =>
    match getLinkedValue db vmeta.TxID with
    | none => .error .NotFound
    | some v => .ok (some v)

/-- storage.go GetBalance: read the 0x4/ slot; database ErrNotFound is mapped
to balance 0 with no error. -/
def GetBalance (db : State) (address : Address) : Nat :=
  match db.balances address with
  | none => 0
  | some b => b

/-- storage.go SetBalance. -/
def SetBalance (db : State) (address : Address) (bal : Nat) : State :=
  { db with balances := fun a => if a = address then some bal else db.balances a }

/-- go-ethereum math.SafeAdd on uint64 inputs: wrapped sum and overflow flag. -/
def SafeAdd (x y : Nat) : Nat × Bool :=
  ((x + y) % 2 ^ 64, decide (2 ^ 64 ≤ x + y))

/-- go-ethereum math.SafeSub on uint64 inputs: wrapped difference and
underflow flag. -/
def SafeSub (x y : Nat) : Nat × Bool :=
  if y ≤ x then (x - y, false) else ((2 ^ 64 + x - y) % 2 ^ 64, true)

/-- storage.go ModifyBalance: checked add/subtract of change against the
stored balance; on overflow/underflow return ErrInvalidBalance leaving the
state untouched, otherwise persist and return the new balance. -/
def ModifyBalance (db : State) (address : Address) (add : Bool) (change : Nat) :
    Except ChainErr Nat × State :=
  match (match add with
         | true => SafeAdd (GetBalance db address) change
         | false => SafeSub (GetBalance db address) change) with
  | (_, true) => (.error .InvalidBalance, db)
  | (n, false) => (.ok n, SetBalance db address n)

/-- Transaction variants (decoder.go Input.Decode targets). -/
inductive UnsignedTx where
  | setTx (value : Bytes)
  | transferTx (toAddr : Address) (units : Nat)
deriving DecidableEq, Repr

/-- A signed transaction as far as storage linkage is concerned: its identity
hash (tx.ID(), 32 bytes) and its unsigned payload. -/
structure Tx where
  id : Bytes
  utx : UnsignedTx
deriving DecidableEq, Repr

/-- One iteration of storage.go linkValues: for a SetTx with a non-empty
value, write the value under PrefixTxValueKey(tx.ID()) and replace the value
field with the 32 id bytes; other transactions pass through.  (The ogTxs
copy kept by the Go code to repair the in-memory block afterwards does not
affect the persisted form and is dropped.) -/
def linkTx (db : State) (tx : Tx) : State × Tx :=
  match tx.utx with
  | .setTx v =>
    if v.length = 0 then (db, tx)
    else (putTxValue db tx.id v, { tx with utx := .setTx tx.id })
  | _ => (db, tx)

/-- storage.go linkValues over the block's transaction list, in order. -/
def linkValues (db : State) : List Tx → State × List Tx
  | [] => (db, [])
  | tx :: rest =>
    let p := linkTx db tx
    let q := linkValues p.1 rest
    (q.1, p.2 :: q.2)

/-- One iteration of storage.go restoreValues: for a SetTx with non-empty
value bytes, parse them as the owning transaction id (ids.ToID) and replace
them with the bytes stored under PrefixTxValueKey of that id; a parse or
lookup failure aborts (none). -/
def restoreTx (db : State) (tx : Tx) : Option Tx :=
  match tx.utx with
  | .setTx v =>
    if v.length = 0 then some tx
    else
      match toID v with
      | none => none
      | some txID =>
        match db.txValues txID with
        | none => none
        | some b => some { tx with utx := .setTx b }
  | _ => some tx

/-- storage.go restoreValues over the persisted block's transaction list
(the GetBlock path: the avalanchego Unmarshal of the block body is elided as
an identity round-trip, so the persisted block is its linked tx list). -/
def restoreValues (db : State) : List Tx → Option (List Tx)
  | [] => some []
  | tx :: rest =>
    match restoreTx db tx with
    | none => none
    | some t2 => (restoreValues db rest).map (fun r => t2 :: r)

/-- The transaction ids that linkValues writes: ids of SetTx entries with a
non-empty value. -/
def setIds (txs : List Tx) : List Bytes :=
  txs.filterMap (fun tx =>
    match tx.utx with
    | .setTx v => if v.length = 0 then none else some tx.id
    | _ => none)

/-- vm.ResolveReply as the client observes it. -/
structure ResolveReply where
  respExists : Bool
  Value : Bytes
  valueMeta : Option ValueMeta
deriving DecidableEq, Repr

/-- part_005 client.Resolve, given the server reply: a non-existent key
reports (false, nil, nil); an existing key whose value bytes do not hash to
the requested key is ErrIntegrityFailure; otherwise the bytes and metadata
are returned with no error. -/
def clientResolve (kh : Bytes → Bytes) (key : Bytes) (resp : ResolveReply) :
    Except ChainErr (Bool × Option Bytes × Option ValueMeta) :=
  if resp.respExists = false then .ok (false, none, none)
  else if key ≠ ValueHash kh resp.Value then .error .IntegrityFailure
  else .ok (true, some resp.Value, resp.valueMeta)

/-- Executable stand-in digest for closed evaluations: a fixed non-zero
32-byte output, the only property of keccak256 the concrete scenario uses. -/
def khashW : Bytes → Bytes :=
  fun _ => List.replicate 32 1

/- Helper lemmas -/

theorem GetValueMeta_PutKey_self (db : State) (k : Bytes) (m : ValueMeta) :
    GetValueMeta (PutKey db k m) k = some m := by
  simp [GetValueMeta, PutKey]

theorem GetBalance_SetBalance_self (db : State) (a : Address) (v : Nat) :
    GetBalance (SetBalance db a v) a = v := by
  simp [GetBalance, SetBalance]

/- Concrete inputs for the witnesses -/

def tidW : Bytes := List.replicate 32 3

def tcW : TransactionContext :=
  { genesis := DefaultGenesis, blockTime := 1, txID := tidW, sender := 0 }

def tcW2 : TransactionContext :=
  { genesis := DefaultGenesis, blockTime := 2, txID := List.replicate 32 4, sender := 1 }

def stW : State :=
  { emptyState with balances := fun a => if a = 0 then some 10 else none }

def txsW : List Tx := [{ id := List.replicate 32 5, utx := .setTx [7, 8] }]

def respW : ResolveReply :=
  { respExists := true, Value := [7], valueMeta := some { Size := 1, TxID := tidW, Created := 1 } }

/- Claim theorems -/

/-- C1: write-once discipline for content keys.  If a SetTx carrying value v
executed successfully (the first write), then executing a second SetTx with
the same value v against the resulting state fails with KeyExists, and the
stored ValueMeta under hash(v) is still the one the first write created — in
particular its TxID is the first transaction's id.  (In this embedding an
erroring Execute returns no state, mirroring the Go code which returns
before any write, so the failure leaves storage unchanged.) -/
theorem setTx_write_once (kh : Bytes → Bytes) (s : SetTx)
    (tc1 tc2 : TransactionContext) (db0 db1 : State)
    (hg : tc2.genesis = tc1.genesis)
    (h1 : SetTx.Execute kh s tc1 db0 = .ok db1) :
    SetTx.Execute kh s tc2 db1 = .error .KeyExists ∧
      GetValueMeta db1 (ValueHash kh s.Value)
        = some { Size := s.Value.length, TxID := tc1.txID, Created := tc1.blockTime } := by
  unfold SetTx.Execute at h1 ⊢
  by_cases h0 : s.Value.length = 0
  · simp [h0] at h1
  · rw [if_neg h0] at h1 ⊢
    by_cases hbig : tc1.genesis.MaxValueSize < s.Value.length
    · simp [hbig] at h1
    · rw [if_neg hbig] at h1
      rw [hg, if_neg hbig]
      split at h1
      · exact absurd h1 (by simp)
      · have hdb1 := Except.ok.inj h1
        subst hdb1
        rw [GetValueMeta_PutKey_self]
        exact ⟨rfl, rfl⟩

/-- C2: SetTx success postcondition.  For a non-empty value within
MaxValueSize whose content key is not yet present, Execute succeeds and the
new state maps hash(v) to ValueMeta\x7bSize = len v, TxID = txID,
Created = blockTime\x7d. -/
theorem setTx_execute_success (kh : Bytes → Bytes) (s : SetTx)
    (tc : TransactionContext) (db : State)
    (h0 : 0 < s.Value.length)
    (hmax : s.Value.length ≤ tc.genesis.MaxValueSize)
    (hnew : GetValueMeta db (ValueHash kh s.Value) = none) :
    SetTx.Execute kh s tc db
      = .ok (PutKey db (ValueHash kh s.Value)
          { Size := s.Value.length, TxID := tc.txID, Created := tc.blockTime }) ∧
      GetValueMeta
          (PutKey db (ValueHash kh s.Value)
            { Size := s.Value.length, TxID := tc.txID, Created := tc.blockTime })
          (ValueHash kh s.Value)
        = some { Size := s.Value.length, TxID := tc.txID, Created := tc.blockTime } := by
  refine ⟨?_, GetValueMeta_PutKey_self _ _ _⟩
  unfold SetTx.Execute
  rw [if_neg (by omega), if_neg (by omega), hnew]

set_option maxRecDepth 8192 in
/-- C3 counterexample: the claim says FeeUnits = base units +
ceil(len(value)/ValueUnitSize); at a value of exactly ValueUnitSize bytes
(1024 under DefaultGenesis) the code charges base + 2 (floor + 1) while the
claimed formula gives base + 1. -/
theorem setTx_feeUnits_ceil_counterexample :
    ¬ (SetTx.FeeUnits { Value := List.replicate 1024 0 } DefaultGenesis
        = BaseTxFeeUnits DefaultGenesis
          + ((List.replicate 1024 (0 : Nat)).length + DefaultGenesis.ValueUnitSize - 1)
              / DefaultGenesis.ValueUnitSize) := by
  intro hcl
  rw [List.length_replicate] at hcl
  simp only [SetTx.FeeUnits, valueUnits, BaseTxFeeUnits, DefaultGenesis,
    List.length_replicate] at hcl
  norm_num at hcl

/-- C3 amended: SetTx.FeeUnits equals base units plus
ceil((len(value) + 1) / ValueUnitSize), i.e. floor(len/ValueUnitSize) + 1:
one value unit is always charged, and a full extra unit is charged at every
exact multiple of ValueUnitSize. -/
theorem setTx_feeUnits_amended (s : SetTx) (g : Genesis)
    (h : 0 < g.ValueUnitSize) :
    SetTx.FeeUnits s g
      = BaseTxFeeUnits g
        + (s.Value.length + 1 + g.ValueUnitSize - 1) / g.ValueUnitSize := by
  simp only [SetTx.FeeUnits, valueUnits]
  have heq : s.Value.length + 1 + g.ValueUnitSize - 1 = s.Value.length + g.ValueUnitSize := by
    omega
  rw [heq, Nat.add_div_right _ h]

/-- C3 witness for the amended theorem: under DefaultGenesis a 1-byte value
costs base + ceil(2/1024) = base + 1 value unit. -/
theorem setTx_feeUnits_amended_witness :
    0 < DefaultGenesis.ValueUnitSize ∧
    SetTx.FeeUnits { Value := [7] } DefaultGenesis
      = BaseTxFeeUnits DefaultGenesis
        + (([7] : Bytes).length + 1 + DefaultGenesis.ValueUnitSize - 1)
            / DefaultGenesis.ValueUnitSize :=
  ⟨by decide, setTx_feeUnits_amended { Value := [7] } DefaultGenesis (by decide)⟩

/-- C4 evidence: over an empty store SelectRandomValueKey returns the
zero-hash sentinel (the claim's first half), but over a store holding
exactly one content key — ValueKey(hash(v)) for value v = [0x07], with a
non-zero digest — it still returns the zero-hash sentinel at index 0
instead of that key: the HasPrefix test compares against the full 34-byte
ValueKey(common.Hash\x7b\x7d), which only the all-zero content key can
match, and the guard bytes.Compare(baseKey, curKey) < -1 can never hold. -/
theorem selectRandomValueKey_misses_existing_key :
    SelectRandomValueKey khashW [] 0 = zeroHash ∧
    SelectRandomValueKey khashW [ValueKey (ValueHash khashW [7])] 0 = zeroHash ∧
    ValueHash khashW [7] ≠ zeroHash := by
  decide

/-- C8: SetTx.Execute returns ValueEmpty exactly when the value is empty and
ValueTooBig exactly when its length exceeds genesis.MaxValueSize; both
checks precede the content-key lookup and the write, and an erroring
Execute returns no state in this embedding (the Go code returns before any
mutation). -/
theorem setTx_payload_errors (kh : Bytes → Bytes) (s : SetTx)
    (tc : TransactionContext) (db : State) :
    (SetTx.Execute kh s tc db = .error .ValueEmpty ↔ s.Value.length = 0) ∧
    (SetTx.Execute kh s tc db = .error .ValueTooBig
      ↔ tc.genesis.MaxValueSize < s.Value.length) := by
  unfold SetTx.Execute
  by_cases h0 : s.Value.length = 0
  · rw [if_pos h0]
    constructor
    · simp [h0]
    · constructor
      · intro h
        exact absurd h (by simp)
      · intro h
        omega
  · rw [if_neg h0]
    by_cases hbig : tc.genesis.MaxValueSize < s.Value.length
    · rw [if_pos hbig]
      constructor
      · constructor
        · intro h
          exact absurd h (by simp)
        · intro h
          exact absurd h h0
      · simp [hbig]
    · rw [if_neg hbig]
      constructor
      · constructor
        · intro h
          split at h <;> simp at h
        · intro h
          exact absurd h h0
      · constructor
        · intro h
          split at h <;> simp at h
        · intro h
          exact absurd h hbig

/-- Linking a list of transactions only writes the 0x2/ slots named in
setIds: any other transaction-value slot is untouched. -/
theorem linkValues_keeps_txValues (txs : List Tx) (db : State) (i : Bytes)
    (h : i ∉ setIds txs) :
    (linkValues db txs).1.txValues i = db.txValues i := by
  induction txs generalizing db with
  | nil => rfl
  | cons tx rest ih =>
    obtain ⟨tid, utx⟩ := tx
    cases utx with
    | setTx v =>
      by_cases hv : v.length = 0
      · have hv0 : v = [] := List.length_eq_zero.mp hv
        subst hv0
        have hids : setIds ({ id := tid, utx := .setTx [] } :: rest) = setIds rest := by
          simp [setIds]
        rw [hids] at h
        have hlt : linkTx db { id := tid, utx := .setTx [] }
            = (db, { id := tid, utx := .setTx [] }) := by
          simp [linkTx]
        simp only [linkValues, hlt]
        exact ih db h
      · have hv1 : v ≠ [] := by
          intro he
          exact hv (by simp [he])
        have hids : setIds ({ id := tid, utx := .setTx v } :: rest)
            = tid :: setIds rest := by
          simp [setIds, hv1]
        rw [hids] at h
        have hne : i ≠ tid := fun he => h (he ▸ List.mem_cons_self _ _)
        have hni : i ∉ setIds rest := fun he => h (List.mem_cons_of_mem _ he)
        have hlt : linkTx db { id := tid, utx := .setTx v }
            = (putTxValue db tid v, { id := tid, utx := .setTx tid }) := by
          simp [linkTx, hv]
        simp only [linkValues, hlt]
        rw [ih _ hni]
        simp [putTxValue, hne]
    | transferTx a u =>
      have hids : setIds ({ id := tid, utx := .transferTx a u } :: rest)
          = setIds rest := by
        simp [setIds]
      rw [hids] at h
      have hlt : linkTx db { id := tid, utx := .transferTx a u }
          = (db, { id := tid, utx := .transferTx a u }) := by
        simp [linkTx]
      simp only [linkValues, hlt]
      exact ih db h

/-- C5: link/unlink round-trip.  Persisting a block's transactions with
linkValues (every non-empty SetTx value is moved to its transaction-keyed
slot and replaced in the block by the 32 id bytes) and reading the
persisted form back with restoreValues yields the original transaction
list — in particular every SetTx again carries its literal value, not the
internal pointer.  Hypotheses: linked transaction ids are the 32-byte ids
the code produces, and are pairwise distinct (transaction ids are content
hashes of distinct transactions). -/
theorem link_restore_roundtrip (db : State) (txs : List Tx)
    (h32 : ∀ i ∈ setIds txs, i.length = 32)
    (hnd : (setIds txs).Nodup) :
    restoreValues (linkValues db txs).1 (linkValues db txs).2 = some txs := by
  induction txs generalizing db with
  | nil => rfl
  | cons tx rest ih =>
    obtain ⟨tid, utx⟩ := tx
    cases utx with
    | setTx v =>
      by_cases hv : v.length = 0
      · have hv0 : v = [] := List.length_eq_zero.mp hv
        subst hv0
        have hids : setIds ({ id := tid, utx := .setTx [] } :: rest) = setIds rest := by
          simp [setIds]
        rw [hids] at h32 hnd
        have hlt : linkTx db { id := tid, utx := .setTx [] }
            = (db, { id := tid, utx := .setTx [] }) := by
          simp [linkTx]
        have hrt : restoreTx (linkValues db rest).1 { id := tid, utx := .setTx [] }
            = some { id := tid, utx := .setTx [] } := by
          simp [restoreTx]
        simp only [linkValues, hlt, restoreValues, hrt]
        rw [ih db h32 hnd]
        rfl
      · have hv1 : v ≠ [] := by
          intro he
          exact hv (by simp [he])
        have hids : setIds ({ id := tid, utx := .setTx v } :: rest)
            = tid :: setIds rest := by
          simp [setIds, hv1]
        rw [hids] at h32 hnd
        have htid32 : tid.length = 32 := h32 tid (List.mem_cons_self _ _)
        have htidnz : ¬ tid.length = 0 := by omega
        have hnotin : tid ∉ setIds rest := (List.nodup_cons.mp hnd).1
        have hkeep := linkValues_keeps_txValues rest (putTxValue db tid v) tid hnotin
        have hput : (putTxValue db tid v).txValues tid = some v := by
          simp [putTxValue]
        have hih := ih (putTxValue db tid v)
          (fun i hi => h32 i (List.mem_cons_of_mem _ hi)) (List.nodup_cons.mp hnd).2
        have hlt : linkTx db { id := tid, utx := .setTx v }
            = (putTxValue db tid v, { id := tid, utx := .setTx tid }) := by
          simp [linkTx, hv]
        have hrt : restoreTx (linkValues (putTxValue db tid v) rest).1
              { id := tid, utx := .setTx tid }
            = some { id := tid, utx := .setTx v } := by
          simp only [restoreTx, toID, if_neg htidnz, if_pos htid32, hkeep, hput]
        simp only [linkValues, hlt, restoreValues, hrt]
        rw [hih]
        rfl
    | transferTx a u =>
      have hids : setIds ({ id := tid, utx := .transferTx a u } :: rest) = setIds rest := by
        simp [setIds]
      rw [hids] at h32 hnd
      have hlt : linkTx db { id := tid, utx := .transferTx a u }
          = (db, { id := tid, utx := .transferTx a u }) := by
        simp [linkTx]
      have hrt : restoreTx (linkValues db rest).1 { id := tid, utx := .transferTx a u }
          = some { id := tid, utx := .transferTx a u } := by
        simp [restoreTx]
      simp only [linkValues, hlt, restoreValues, hrt]
      rw [ih db h32 hnd]
      rfl

/-- C6: checked balance mutation with atomic failure.  With stored balance b
(uint64) and change u (uint64): subtract with u ≤ b succeeds storing b - u;
subtract with u > b fails with InvalidBalance leaving the state untouched;
add overflowing uint64 fails with InvalidBalance leaving the state
untouched; add without overflow succeeds storing b + u. -/
theorem modifyBalance_checked (db : State) (a : Address) (b u : Nat)
    (hb : GetBalance db a = b) (hblt : b < 2 ^ 64) (hult : u < 2 ^ 64) :
    (u ≤ b →
      ModifyBalance db a false u = (.ok (b - u), SetBalance db a (b - u)) ∧
        GetBalance (ModifyBalance db a false u).2 a = b - u) ∧
    (b < u →
      ModifyBalance db a false u = (.error .InvalidBalance, db) ∧
        GetBalance (ModifyBalance db a false u).2 a = b) ∧
    (b + u < 2 ^ 64 →
      ModifyBalance db a true u = (.ok (b + u), SetBalance db a (b + u)) ∧
        GetBalance (ModifyBalance db a true u).2 a = b + u) ∧
    (2 ^ 64 ≤ b + u →
      ModifyBalance db a true u = (.error .InvalidBalance, db) ∧
        GetBalance (ModifyBalance db a true u).2 a = b) := by
  subst hb
  refine ⟨fun hle => ?_, fun hgt => ?_, fun hok => ?_, fun hof => ?_⟩
  · have hs : SafeSub (GetBalance db a) u = (GetBalance db a - u, false) := by
      unfold SafeSub
      rw [if_pos hle]
    have hmb : ModifyBalance db a false u
        = (.ok (GetBalance db a - u), SetBalance db a (GetBalance db a - u)) := by
      simp only [ModifyBalance, hs]
    exact ⟨hmb, by rw [hmb, GetBalance_SetBalance_self]⟩
  · have hs : SafeSub (GetBalance db a) u
        = ((2 ^ 64 + GetBalance db a - u) % 2 ^ 64, true) := by
      unfold SafeSub
      rw [if_neg (by omega)]
    have hmb : ModifyBalance db a false u = (.error .InvalidBalance, db) := by
      simp only [ModifyBalance, hs]
    exact ⟨hmb, by rw [hmb]⟩
  · have hs : SafeAdd (GetBalance db a) u = (GetBalance db a + u, false) := by
      unfold SafeAdd
      rw [Nat.mod_eq_of_lt hok, decide_eq_false (by omega)]
    have hmb : ModifyBalance db a true u
        = (.ok (GetBalance db a + u), SetBalance db a (GetBalance db a + u)) := by
      simp only [ModifyBalance, hs]
    exact ⟨hmb, by rw [hmb, GetBalance_SetBalance_self]⟩
  · have hs : SafeAdd (GetBalance db a) u = ((GetBalance db a + u) % 2 ^ 64, true) := by
      unfold SafeAdd
      rw [decide_eq_true hof]
    have hmb : ModifyBalance db a true u = (.error .InvalidBalance, db) := by
      simp only [ModifyBalance, hs]
    exact ⟨hmb, by rw [hmb]⟩

/-- C7: set/resolve round-trip.  After a SetTx carrying value v executes
successfully and the literal bytes of v are stored under the owning
transaction's value slot (done by linkValues at block accept), GetValue at
the content key hash(v) reports the key as existing and returns exactly v. -/
theorem set_resolve_roundtrip (kh : Bytes → Bytes) (s : SetTx)
    (tc : TransactionContext) (db0 db1 : State)
    (hlen : tc.txID.length = 32)
    (h1 : SetTx.Execute kh s tc db0 = .ok db1) :
    GetValue (putTxValue db1 tc.txID s.Value) (ValueHash kh s.Value)
      = .ok (some s.Value) := by
  unfold SetTx.Execute at h1
  by_cases h0 : s.Value.length = 0
  · simp [h0] at h1
  · rw [if_neg h0] at h1
    by_cases hbig : tc.genesis.MaxValueSize < s.Value.length
    · simp [hbig] at h1
    · rw [if_neg hbig] at h1
      split at h1
      · exact absurd h1 (by simp)
      · have hdb1 := Except.ok.inj h1
        subst hdb1
        have hmeta : GetValueMeta
            (putTxValue
              (PutKey db0 (ValueHash kh s.Value)
                { Size := s.Value.length, TxID := tc.txID, Created := tc.blockTime })
              tc.txID s.Value)
            (ValueHash kh s.Value)
            = some { Size := s.Value.length, TxID := tc.txID, Created := tc.blockTime } := by
          simp [GetValueMeta, PutKey, putTxValue]
        unfold GetValue
        rw [hmeta]
        simp [getLinkedValue, toID, hlen, putTxValue]

/-- C9: client-side content integrity.  When the server reports the key as
existing, a reply whose value bytes do not hash to the requested key makes
client.Resolve fail with IntegrityFailure returning no bytes, and a reply
whose bytes do hash to the key is returned with its metadata and no error. -/
theorem client_resolve_integrity (kh : Bytes → Bytes) (key : Bytes)
    (resp : ResolveReply) (hex : resp.respExists = true) :
    (ValueHash kh resp.Value ≠ key →
      clientResolve kh key resp = .error .IntegrityFailure) ∧
    (ValueHash kh resp.Value = key →
      clientResolve kh key resp = .ok (true, some resp.Value, resp.valueMeta)) := by
  constructor
  · intro hne
    have hne2 : key ≠ ValueHash kh resp.Value := fun e => hne e.symm
    simp [clientResolve, hex, hne2]
  · intro heq
    have heq2 : key = ValueHash kh resp.Value := heq.symm
    simp [clientResolve, hex, heq2]

/-- C10: fresh addresses read as zero.  If no balance record exists for an
address, GetBalance returns 0 with no error (the database not-found result
is mapped to the zero balance), and ModifyBalance behaves exactly as if the
address held an explicitly stored zero balance: same result, and the same
balances observable at every address afterwards. -/
theorem getBalance_fresh_zero (db : State) (a : Address)
    (h : db.balances a = none) :
    GetBalance db a = 0 ∧
    ∀ add u,
      (ModifyBalance db a add u).1 = (ModifyBalance (SetBalance db a 0) a add u).1 ∧
      ∀ a2, GetBalance (ModifyBalance db a add u).2 a2
        = GetBalance (ModifyBalance (SetBalance db a 0) a add u).2 a2 := by
  have hz : GetBalance db a = 0 := by simp [GetBalance, h]
  have hz2 : GetBalance (SetBalance db a 0) a = 0 := GetBalance_SetBalance_self _ _ _
  have herrst : ∀ a2, GetBalance db a2 = GetBalance (SetBalance db a 0) a2 := by
    intro a2
    by_cases ha2 : a2 = a
    · subst ha2
      rw [hz, hz2]
    · simp [GetBalance, SetBalance, ha2]
  have hstates : ∀ n a2, GetBalance (SetBalance db a n) a2
      = GetBalance (SetBalance (SetBalance db a 0) a n) a2 := by
    intro n a2
    by_cases ha2 : a2 = a
    · subst ha2
      simp [GetBalance, SetBalance]
    · simp [GetBalance, SetBalance, ha2]
  refine ⟨hz, fun add u => ?_⟩
  cases add with
  | false =>
    rcases hp : SafeSub 0 u with ⟨n, fl⟩
    have hl : SafeSub (GetBalance db a) u = (n, fl) := by rw [hz, hp]
    have hr : SafeSub (GetBalance (SetBalance db a 0) a) u = (n, fl) := by rw [hz2, hp]
    cases fl
    · constructor
      · simp only [ModifyBalance, hl, hr]
      · intro a2
        simp only [ModifyBalance, hl, hr]
        exact hstates n a2
    · constructor
      · simp only [ModifyBalance, hl, hr]
      · intro a2
        simp only [ModifyBalance, hl, hr]
        exact herrst a2
  | true =>
    rcases hp : SafeAdd 0 u with ⟨n, fl⟩
    have hl : SafeAdd (GetBalance db a) u = (n, fl) := by rw [hz, hp]
    have hr : SafeAdd (GetBalance (SetBalance db a 0) a) u = (n, fl) := by rw [hz2, hp]
    cases fl
    · constructor
      · simp only [ModifyBalance, hl, hr]
      · intro a2
        simp only [ModifyBalance, hl, hr]
        exact hstates n a2
    · constructor
      · simp only [ModifyBalance, hl, hr]
      · intro a2
        simp only [ModifyBalance, hl, hr]
        exact herrst a2

/-- C1 witness: concrete first write of value [7] under tcW succeeds; the
second SetTx with the same value under tcW2 fails with KeyExists and the
stored ValueMeta still carries the first transaction's id tidW. -/
theorem setTx_write_once_witness :
    SetTx.Execute khashW { Value := [7] } tcW2
        (PutKey emptyState (ValueHash khashW [7])
          { Size := 1, TxID := tidW, Created := 1 })
      = .error .KeyExists ∧
    GetValueMeta
        (PutKey emptyState (ValueHash khashW [7])
          { Size := 1, TxID := tidW, Created := 1 })
        (ValueHash khashW [7])
      = some { Size := 1, TxID := tidW, Created := 1 } :=
  setTx_write_once khashW { Value := [7] } tcW tcW2 emptyState
    (PutKey emptyState (ValueHash khashW [7]) { Size := 1, TxID := tidW, Created := 1 })
    rfl rfl

/-- C2 witness: a fresh 1-byte value [9] under tcW2 executes successfully and
the new state stores ValueMeta\x7b1, tcW2.txID, 2\x7d under its content key. -/
theorem setTx_execute_success_witness :
    SetTx.Execute khashW { Value := [9] } tcW2 emptyState
      = .ok (PutKey emptyState (ValueHash khashW [9])
          { Size := 1, TxID := List.replicate 32 4, Created := 2 }) ∧
    GetValueMeta
        (PutKey emptyState (ValueHash khashW [9])
          { Size := 1, TxID := List.replicate 32 4, Created := 2 })
        (ValueHash khashW [9])
      = some { Size := 1, TxID := List.replicate 32 4, Created := 2 } :=
  setTx_execute_success khashW { Value := [9] } tcW2 emptyState
    (by decide) (by decide) rfl

/-- C5 witness: linking then restoring the one-SetTx block txsW over the
empty state returns the original transaction list with its literal value. -/
theorem link_restore_roundtrip_witness :
    (∀ i ∈ setIds txsW, i.length = 32) ∧ (setIds txsW).Nodup ∧
    restoreValues (linkValues emptyState txsW).1 (linkValues emptyState txsW).2
      = some txsW :=
  ⟨by decide, by decide, link_restore_roundtrip emptyState txsW (by decide) (by decide)⟩

/-- C6 witness: on stW (address 0 holds 10): subtracting 3 succeeds storing 7;
subtracting 11 fails with InvalidBalance leaving the state untouched. -/
theorem modifyBalance_checked_witness :
    GetBalance stW 0 = 10 ∧
    ModifyBalance stW 0 false 3 = (.ok (10 - 3), SetBalance stW 0 (10 - 3)) ∧
    ModifyBalance stW 0 false 11 = (.error .InvalidBalance, stW) :=
  ⟨rfl,
    ((modifyBalance_checked stW 0 10 3 rfl (by decide) (by decide)).1 (by decide)).1,
    (((modifyBalance_checked stW 0 10 11 rfl (by decide) (by decide)).2).1 (by decide)).1⟩

/-- C7 witness: after executing a SetTx with value [7, 9] under tcW and
storing the literal bytes under tidW's value slot, GetValue at the content
key returns exactly [7, 9]. -/
theorem set_resolve_roundtrip_witness :
    tidW.length = 32 ∧
    GetValue
        (putTxValue
          (PutKey emptyState (ValueHash khashW [7, 9])
            { Size := 2, TxID := tidW, Created := 1 })
          tidW [7, 9])
        (ValueHash khashW [7, 9])
      = .ok (some [7, 9]) :=
  ⟨by decide,
    set_resolve_roundtrip khashW { Value := [7, 9] } tcW emptyState
      (PutKey emptyState (ValueHash khashW [7, 9]) { Size := 2, TxID := tidW, Created := 1 })
      (by decide) rfl⟩

/-- C9 witness: with the server reporting existence of respW (value [7]),
requesting the zero hash (a mismatch) yields IntegrityFailure, while
requesting the actual content hash returns the bytes and metadata. -/
theorem client_resolve_integrity_witness :
    respW.respExists = true ∧
    clientResolve khashW zeroHash respW = .error .IntegrityFailure ∧
    clientResolve khashW (ValueHash khashW [7]) respW
      = .ok (true, some [7], some { Size := 1, TxID := tidW, Created := 1 }) :=
  ⟨rfl,
    (client_resolve_integrity khashW zeroHash respW rfl).1 (by decide),
    (client_resolve_integrity khashW (ValueHash khashW [7]) respW rfl).2 rfl⟩

/-- C10 witness: address 0 has no balance record in emptyState; GetBalance
reads 0, and an add of 5 produces the same result as if a zero balance had
been stored explicitly. -/
theorem getBalance_fresh_zero_witness :
    emptyState.balances 0 = none ∧
    GetBalance emptyState 0 = 0 ∧
    (ModifyBalance emptyState 0 true 5).1
      = (ModifyBalance (SetBalance emptyState 0 0) 0 true 5).1 :=
  ⟨rfl, (getBalance_fresh_zero emptyState 0 rfl).1,
    ((getBalance_fresh_zero emptyState 0 rfl).2 true 5).1⟩

end Blobvm
